import Mathlib

set_option maxRecDepth 100000
set_option maxHeartbeats 1000000

/-!
Verification of the ingest-dedupe-notify pipeline of the reported-posts bot
(`src/index.js`, class `ReportedPostsBot`) against its natural-language
specification.

JavaScript strings are modelled as lists of characters (`Str`); the JS
string methods used by the source (`trim`, `length`, `substring`,
`includes`, `split`, `replaceAll`) are embedded as list functions below.
Machine integers do not occur (all ids and timestamps are small
non-negative integers), so `Nat` is used throughout.
-/

/-- Model of a JavaScript string: a list of UTF-16 units, one `Char` each
(every literal occurring in the source is inside the BMP, so one code unit
is one character). -/
abbrev Str := List Char

/-- The default ellipsis argument of `trimEllip` (source line 142:
one UTF-16 unit, so its JS `length` is 1). -/
def ellipsisStr : Str := "…".data

/-- Whitespace recognised by JavaScript `String.prototype.trim`
(the ASCII whitespace characters plus the non-ASCII ones that can
realistically occur; the claims only depend on surrounding whitespace
being removed). -/
def isJsWs (c : Char) : Bool :=
  c = ' ' || c = '\t' || c = '\n' || c = '\r' || c = '\x0b' || c = '\x0c' ||
  c = ' ' || c = ' ' || c = ' '

/-- Embedding of JavaScript `text.trim()`: removes leading and trailing
whitespace. -/
def jsTrim (s : Str) : Str :=
  ((s.dropWhile isJsWs).reverse.dropWhile isJsWs).reverse

/-- Embedding of `ReportedPostsBot.trimEllip` (source lines 142-147):
`text = text.trim(); return text.length > length ?
text.substring(0, length - elipsis.length) + elipsis : text;`.
JS `substring(0, n)` is `take n`; `length - elipsis.length` clamps at 0
exactly as JS `substring` does for negative arguments. -/
def trimEllip (text : Str) (length : Nat) (elipsis : Str := ellipsisStr) : Str :=
  let t := jsTrim text
  if length < t.length then t.take (length - elipsis.length) ++ elipsis else t

/-- Embedding of JS `s.replaceAll(from, to)` for single-character
arguments (the only use in the source is `replaceAll(' ', '_')`). -/
def jsReplaceAll (s : Str) (a b : Char) : Str :=
  s.map (fun c => if c = a then b else c)

/-- Decimal rendering of a `Nat`, as JS template-literal interpolation of a
number produces. -/
def natStr (n : Nat) : Str := (Nat.repr n).data

/-- Embedding of JS `a || b` on strings: the empty string is falsy, any
other string is truthy, so the result is `a` unless `a` is empty. -/
def jsOrStr (a b : Str) : Str := if a.isEmpty then b else a

/-- Embedding of JS `String.prototype.split(sep)` for a one-character
separator: splits at every occurrence, keeping empty segments. -/
def jsSplit (sep : Char) : Str → List Str
  | [] => [[]]
  | c :: rest =>
    if c = sep then [] :: jsSplit sep rest
    else
      match jsSplit sep rest with
      | [] => [[c]]
      | seg :: segs => (c :: seg) :: segs

def litHttps : Str := "https://".data
def litDot : Str := ".".data
def litSlash : Str := "/".data

/-- Embedding of `ReportedPostsBot.getWikiUrl` (source lines 127-133):
if the interwiki contains a dot, destructure the full split
`let [lang, subdomain] = interwiki.split('.')` — which takes the first two
segments of the split and discards any further segments — and return
the URL formed of the subdomain, the domain and the language as a path;
otherwise return the URL formed of the interwiki and the domain. -/
def getWikiUrl (interwiki domain : Str) : Str :=
  if interwiki.contains '.' then
    let parts := jsSplit '.' interwiki
    let lang := (parts.get? 0).getD []
    let subdomain := (parts.get? 1).getD []
    litHttps ++ subdomain ++ litDot ++ domain ++ litSlash ++ lang
  else
    litHttps ++ interwiki ++ litDot ++ domain

/-- Reading of the same operation following the words of claim C10: a
dotted interwiki is split at the FIRST dot into a language and a
subdomain, the subdomain being everything after that first dot.  Used
only to compare with `getWikiUrl`, which is translated from the
source. -/
def getWikiUrlSpec (interwiki domain : Str) : Str :=
  if interwiki.contains '.' then
    let lang := interwiki.takeWhile (fun c => c ≠ '.')
    let subdomain := (interwiki.dropWhile (fun c => c ≠ '.')).tail
    litHttps ++ subdomain ++ litDot ++ domain ++ litSlash ++ lang
  else
    litHttps ++ interwiki ++ litDot ++ domain

/-!  ## Session Manager (`fandomLogin`, source lines 90-112, and `run`,
source lines 179-187)

`fandomLogin` wraps its work in a promise whose async executor calls
`resolve(response)` only in the `try` branch, i.e. only when the FIRST
login attempt succeeds.  In the `catch` branch it awaits a 10-second
timer and then calls `this.fandomLogin()` recursively from inside the
timer callback; the promise returned by that recursive call is never
linked to the outer promise, and the outer `resolve` is never invoked on
this path.  Consequently the promise returned by the first
`fandomLogin()` call settles exactly when the first attempt succeeds,
while the detached retry chain keeps attempting every 10 seconds until
some attempt succeeds.

A login scenario is a list of attempt outcomes, `true` = the upstream
token request succeeds, consumed in order by the retry chain. -/

/-- Number of login attempts the retry chain performs: it stops at the
first successful attempt (source lines 93-109). -/
def loginAttemptsUsed : List Bool → Nat
  | [] => 0
  | true :: _ => 1
  | false :: rest => 1 + loginAttemptsUsed rest

/-- Total milliseconds of fixed backoff spent by the retry chain: one
10000 ms timer per failed attempt before the first success (source
line 109). -/
def loginDelaysMs : List Bool → Nat
  | [] => 0
  | true :: _ => 0
  | false :: rest => 10000 + loginDelaysMs rest

/-- Whether the retry chain eventually logs in (some attempt in the
scenario succeeds).  The chain never rejects: the `catch` branch always
schedules another attempt, so no failure is ever propagated as fatal. -/
def loginEventuallySucceeds : List Bool → Bool
  | [] => false
  | true :: _ => true
  | false :: rest => loginEventuallySucceeds rest

/-- Whether the promise returned by the `fandomLogin()` call awaited in
`run` (source line 180) ever settles: its executor invokes `resolve` only
when the first attempt succeeds; the failure path never resolves it. -/
def fandomLoginResolves (outcomes : List Bool) : Bool :=
  outcomes.head? = some true

/-- `run` (source lines 179-187) awaits `fandomLogin` and only then
starts polling; so polling starts exactly when that awaited promise
settles. -/
def runReachesPoll (outcomes : List Bool) : Bool :=
  fandomLoginResolves outcomes

/-!  ## Rich-text flattening (`adfToText`, source lines 154-174)

The source parses the `jsonModel` string with `JSON.parse` (a platform
primitive) and traverses the result with duck typing inside a `try`
block whose `catch` is empty.  The parse result is embedded as
`Option Json`: `none` stands for a parse failure or an absent
(`undefined`) input — both throw inside the `try` and so yield the text
accumulated up to that point. -/

/-! A parsed JSON value.  Arrays and objects carry their own list types
so that all recursion over documents is mutual-structural (a nested
`List Json` would make size measures noncomputable in this Lean
version). -/
mutual
/-- A parsed JSON value. -/
inductive Json where
  | null
  | bool (b : Bool)
  | num (n : Int)
  | str (s : Str)
  | arr (elems : JsonList)
  | obj (fields : JsonFields)
inductive JsonList where
  | nil
  | cons (hd : Json) (tl : JsonList)
inductive JsonFields where
  | nil
  | cons (key : Str) (val : Json) (tl : JsonFields)
end

/-- The elements of a JSON array as an ordinary list. -/
def JsonList.toList : JsonList → List Json
  | .nil => []
  | .cons h t => h :: t.toList

/-- Convenience constructor for array documents. -/
def JsonList.ofList : List Json → JsonList
  | [] => .nil
  | h :: t => .cons h (JsonList.ofList t)

/-- Convenience constructor for object documents. -/
def JsonFields.ofList : List (Str × Json) → JsonFields
  | [] => .nil
  | (k, v) :: t => .cons k v (JsonFields.ofList t)

/-- Convenience constructor for array documents. -/
def Json.arrOf (l : List Json) : Json := .arr (JsonList.ofList l)

/-- Convenience constructor for object documents. -/
def Json.objOf (l : List (Str × Json)) : Json := .obj (JsonFields.ofList l)

/-- First field of an object with the given key (`JSON.parse` output has
effectively unique keys). -/
def findField : JsonFields → Str → Option Json
  | .nil, _ => none
  | .cons k v rest, key => if k = key then some v else findField rest key

/-- JS property access `j[key]`: throws on `null`, yields the field on an
object, and `undefined` (here `none`) on any other value. -/
def getField (j : Json) (key : Str) : Except Unit (Option Json) :=
  match j with
  | .null => .error ()
  | .obj fields => .ok (findField fields key)
  | _ => .ok none

/-- JS `for ... of v`: arrays iterate their elements, strings iterate
their characters (as one-character strings); everything else — including
`undefined`, `null`, numbers, booleans and plain objects — throws. -/
def jsIterate : Option Json → Except Unit (List Json)
  | some (.str s) => .ok (s.map (fun c => Json.str [c]))
  | some (.arr xs) => .ok xs.toList
  | _ => .error ()

/-- JS truthiness of a possibly-undefined value: `undefined`, `null`,
`false`, `0` and the empty string are falsy; everything else (including
every array and object) is truthy. -/
def jsTruthy : Option Json → Bool
  | none => false
  | some .null => false
  | some (.bool b) => b
  | some (.num n) => n != 0
  | some (.str s) => !s.isEmpty
  | some (.arr _) => true
  | some (.obj _) => true

def litNull : Str := "null".data
def litTrue : Str := "true".data
def litFalse : Str := "false".data
def litObjObj : Str := "[object Object]".data

mutual
/-- JS string coercion of a value; an array renders as its elements
joined with commas, where `null` elements render as the empty
string. -/
def jsCoerceStr : Json → Str
  | .null => litNull
  | .bool true => litTrue
  | .bool false => litFalse
  | .num n => (toString n).data
  | .str s => s
  | .arr xs => jsArrJoin xs
  | .obj _ => litObjObj
def jsArrJoin : JsonList → Str
  | .nil => []
  | .cons .null .nil => []
  | .cons h .nil => jsCoerceStr h
  | .cons .null t => ',' :: jsArrJoin t
  | .cons h t => jsCoerceStr h ++ ',' :: jsArrJoin t
end

/-- Coercion of a possibly-undefined value; only applied after a
truthiness check, so the `none` arm is unreachable. -/
def jsCoerceOpt : Option Json → Str
  | none => []
  | some j => jsCoerceStr j

def keyContent : Str := "content".data
def keyType : Str := "type".data
def keyText : Str := "text".data
def litParagraph : Str := "paragraph".data

/-- Inner loop of `adfToText` (source lines 163-167): for each node of a
paragraph, append `content.text` to the paragraph text when truthy; a
throw (property access on `null`) aborts the whole traversal. -/
def adfPara : List Json → Str → Except Unit Str
  | [], acc => .ok acc
  | c :: rest, acc =>
    match getField c keyText with
    | .error e => .error e
    | .ok tx => adfPara rest (if jsTruthy tx then acc ++ jsCoerceOpt tx else acc)

/-- The `content` field of a node, iterated (source lines 160 and 163). -/
def adfContent (j : Json) : Except Unit (List Json) :=
  match getField j keyContent with
  | .error e => .error e
  | .ok c => jsIterate c

/-- Contribution of one node of the outer loop (source lines 161-168): a
node whose `type` is not the string `paragraph` contributes nothing; a
paragraph contributes the concatenation of its truthy `text` leaves; an
error is a thrown exception that aborts the traversal. -/
def paraContrib (p : Json) : Except Unit Str :=
  match getField p keyType with
  | .error e => .error e
  | .ok t =>
    match t with
    | some (.str s) =>
      if s = litParagraph then
        match adfContent p with
        | .error e => .error e
        | .ok citems => adfPara citems []
      else .ok []
    | _ => .ok []

/-- Outer loop of `adfToText` (source lines 160-170): paragraphs with
non-empty text are appended, newline-terminated, to the plain text; a
thrown exception is caught by the empty `catch` and the text accumulated
so far is returned. -/
def adfParas : List Json → Str → Str
  | [], acc => acc
  | p :: rest, acc =>
    match paraContrib p with
    | .error _ => acc
    | .ok ptxt => adfParas rest (if ptxt.isEmpty then acc else acc ++ ptxt ++ ['\n'])

/-- Embedding of `ReportedPostsBot.adfToText` (source lines 154-174) on
the parse result of its argument: `none` (absent input or parse failure)
throws at `JSON.parse` and yields the empty string; otherwise the
document traversal runs with every exception caught. -/
def adfToText : Option Json → Str
  | none => []
  | some j =>
    match adfContent j with
    | .error _ => []
    | .ok items => adfParas items []

/-!  ## The polling cycle (`poll`, source lines 194-266)

One cycle consumes the outcome of the `getReportedPosts` request and, if
reached, the outcome of the `getArticleNamesAndUsernames` request.  A
request outcome is `Except FetchErr`: HTTP 403 (`auth403`) triggers the
re-login branch of the `catch`, anything else (`other`: network error,
non-JSON body, missing response fields) the logging branch.  The Discord
webhook call is not awaited by the source, so its failures never reach
the `catch`; delivery is fire-and-forget. -/

inductive FetchErr where
  | auth403
  | other

/-- One entry of `response._embedded.wallOwners`. -/
structure WallOwner where
  wallContainerId : Nat
  userId : Nat

/-- One entry of `response._embedded` posts: the post fields the poll
loop reads.  `thread` models `post._embedded.thread?.[0]` — container
type and container id together, both absent when the thread entry is
missing.  `jsonModel` holds the parse result of the raw `jsonModel`
string (see `adfToText`). -/
structure Post where
  id : Nat
  title : Option Str
  jsonModel : Option Json
  rawContent : Str
  image : Option Str
  creationEpochSecond : Nat
  createdByName : Str
  createdById : Nat
  createdByAvatar : Str
  threadId : Nat
  thread : Option (Str × Nat)

/-- The fetched feed: the posts list and the optional wall-owner side
list. -/
structure Response where
  posts : List Post
  wallOwners : Option (List WallOwner)

/-- The collected post data (`data` object, source lines 215-229, plus
the `wallOwnerId` added on line 233). -/
structure Data where
  title : Option Str
  body : Str
  image : Option Str
  timestamp : Nat
  authorName : Str
  authorId : Nat
  authorAvatar : Str
  postId : Nat
  threadId : Nat
  containerType : Option Str
  containerId : Option Nat
  wallOwnerId : Option Nat
deriving DecidableEq

/-- Builds the `data` object for one post (source lines 215-229):
`body` is `this.adfToText(post.jsonModel) || post.rawContent`,
`timestamp` is `post.creationDate.epochSecond * 1000`. -/
def mkData (p : Post) (owner : Option Nat) : Data :=
  { title := p.title
    body := jsOrStr (adfToText p.jsonModel) p.rawContent
    image := p.image
    timestamp := p.creationEpochSecond * 1000
    authorName := p.createdByName
    authorId := p.createdById
    authorAvatar := p.createdByAvatar
    postId := p.id
    threadId := p.threadId
    containerType := p.thread.map (fun x => x.1)
    containerId := p.thread.map (fun x => x.2)
    wallOwnerId := owner }

/-- The cycle-scoped container metadata cache (`this.containerCache`):
page id to relative article URL, user id to username. -/
structure ContainerCache where
  articleNames : List (Nat × Str)
  userIds : List (Nat × Str)

def emptyCC : ContainerCache := { articleNames := [], userIds := [] }

/-- JS object indexing `table[k]` on the lookup tables. -/
def lookupAssoc (l : List (Nat × Str)) (k : Nat) : Option Str :=
  (l.find? (fun p => p.1 == k)).map (fun p => p.2)

def litForum : Str := "FORUM".data
def litArticleComment : Str := "ARTICLE_COMMENT".data
def litWall : Str := "WALL".data
def litFP : Str := "/f/p/".data
def litRSeg : Str := "/r/".data
def litCommentId : Str := "?commentId=".data
def litReplyId : Str := "&replyId=".data
def litArticleComments : Str := "#articleComments".data
def litMsgWall : Str := "/wiki/Message_Wall:".data
def litThreadIdQ : Str := "?threadId=".data
def litHash : Str := "#".data
def litProfile : Str := "/wiki/Special:UserProfileActivity/".data
def litUntitled : Str := "(untitled)".data

/-- Embedding of `ReportedPostsBot.getPostUrl` (source lines 305-319):
the permalink per container type.  Indexing the container cache with a
missing key yields `undefined`, and reading `.relativeUrl` or
`.username` of it throws — the `error` arm.  An unrecognised (or absent)
container type falls through the `switch` and returns `undefined`. -/
def getPostUrl (base : Str) (cc : ContainerCache) (d : Data) : Except Unit (Option Str) :=
  match d.containerType with
  | none => .ok none
  | some ct =>
    if ct = litForum then
      .ok (some (base ++ litFP ++ natStr d.threadId ++ litRSeg ++ natStr d.postId))
    else if ct = litArticleComment then
      match d.containerId.bind (lookupAssoc cc.articleNames) with
      | none => .error ()
      | some ru =>
        .ok (some (base ++ ru ++ litCommentId ++ natStr d.threadId ++
          litReplyId ++ natStr d.postId ++ litArticleComments))
    else if ct = litWall then
      match d.wallOwnerId.bind (lookupAssoc cc.userIds) with
      | none => .error ()
      | some un =>
        .ok (some (base ++ litMsgWall ++ jsReplaceAll un ' ' '_' ++
          litThreadIdQ ++ natStr d.threadId ++ litHash ++ natStr d.postId))
    else .ok none

/-- Truthiness of a possibly-absent string (`if (data.title)` and the
like): absent or empty is falsy. -/
def jsTruthyOptStr : Option Str → Bool
  | none => false
  | some s => !s.isEmpty

/-- A Discord message embed as `generateEmbed` builds it. -/
structure Embed where
  color : Nat
  url : Option Str
  authorName : Str
  authorAvatar : Str
  authorUrl : Str
  timestamp : Nat
  title : Str
  description : Option Str
  image : Option Str
deriving DecidableEq

/-- Embedding of `ReportedPostsBot.generateEmbed` (source lines
273-297): colour, permalink, author block and timestamp always; a truthy
title gives title plus description (truncated to 256 and 500), otherwise
a truthy body becomes the title (truncated to 256), otherwise the
placeholder; the image only when truthy.  A throw inside `getPostUrl`
propagates (the call happens inside the `try` of `poll`). -/
def generateEmbed (base : Str) (cc : ContainerCache) (d : Data) : Except Unit Embed :=
  match getPostUrl base cc d with
  | .error e => .error e
  | .ok url =>
    let an := trimEllip d.authorName 256
    let aurl := base ++ litProfile ++ jsReplaceAll d.authorName ' ' '_'
    let core : Embed :=
      { color := 0xE1390B
        url := url
        authorName := an
        authorAvatar := d.authorAvatar
        authorUrl := aurl
        timestamp := d.timestamp
        title := litUntitled
        description := none
        image := if jsTruthyOptStr d.image then d.image else none }
    if jsTruthyOptStr d.title then
      .ok { core with
        title := trimEllip (d.title.getD []) 256
        description := some (trimEllip d.body 500) }
    else if !d.body.isEmpty then
      .ok { core with title := trimEllip d.body 256 }
    else
      .ok core

/-- JS `Set.prototype.add` on the id sets, preserving insertion order. -/
def setAdd (s : List Nat) (x : Nat) : List Nat :=
  if s.contains x then s else s ++ [x]

/-- Truthiness of a JS `Set` object: an object reference is always
truthy, regardless of the size of the set — this embeds the
`if (pageIds || userIds)` check of source line 241 faithfully. -/
def jsSetTruthy (_ : List Nat) : Bool := true

/-- Resolution of the wall owner (source line 233):
`response._embedded.wallOwners?.find(wall => wall.wallContainerId ===
data.containerId).userId`.  `none` means the subsequent `.userId` read
throws: either `wallOwners` is absent (optional chaining yields
`undefined`) or `find` returns `undefined`. -/
def wallOwnerFor (wo : Option (List WallOwner)) (cid : Nat) : Option Nat :=
  match wo with
  | none => none
  | some l => (l.find? (fun w => w.wallContainerId == cid)).map (fun w => w.userId)

/-- The FILTERING loop of `poll` (source lines 210-238): posts are
scanned in fetch order; a post whose id is cached is skipped, otherwise
its id is added to the cache at once, its data is collected, page ids
and wall-owner user ids are gathered, and the data is appended to
`embeds`.  The result carries the mutated cache alongside either the
collected accumulators or the thrown exception (the unresolvable
wall-owner read); on a throw the cache mutations made so far persist. -/
def processPosts (wo : Option (List WallOwner)) :
    List Post → List Nat → List Data → List Nat → List Nat →
    List Nat × Except Unit (List Data × List Nat × List Nat)
  | [], cache, embeds, pids, uids => (cache, .ok (embeds, pids, uids))
  | p :: rest, cache, embeds, pids, uids =>
    if cache.contains p.id then
      processPosts wo rest cache embeds pids uids
    else
      let cache2 := p.id :: cache
      match p.thread with
      | none => processPosts wo rest cache2 (embeds ++ [mkData p none]) pids uids
      | some (ct, cid) =>
        if ct = litArticleComment then
          processPosts wo rest cache2 (embeds ++ [mkData p none]) (setAdd pids cid) uids
        else if ct = litWall then
          match wallOwnerFor wo cid with
          | none => (cache2, .error ())
          | some ownerId =>
            processPosts wo rest cache2 (embeds ++ [mkData p (some ownerId)]) pids
              (setAdd uids ownerId)
        else
          processPosts wo rest cache2 (embeds ++ [mkData p none]) pids uids

/-- The chunking of source line 255:
`[...Array(Math.ceil(embeds.length / 10))].map((_, i) =>
embeds.slice(i * 10, i * 10 + 10))`. -/
def jsChunks {α : Type} (l : List α) : List (List α) :=
  (List.range ((l.length + 9) / 10)).map (fun i => (l.drop (i * 10)).take 10)

def exceptOk {ε α : Type} : Except ε α → Bool
  | .ok _ => true
  | .error _ => false

/-- Delivery of the chunks (source lines 257-259): for each chunk the
embeds are generated and the batch is sent (fire and forget).  A throw
while generating the embeds of a chunk aborts delivery: earlier chunks
stay sent, that chunk and the later ones are not sent. -/
def sendChunks (base : Str) (cc : ContainerCache) :
    List (List Data) → List (List Data) × Bool
  | [] => ([], false)
  | chunk :: rest =>
    if chunk.all (fun d => exceptOk (generateEmbed base cc d)) then
      let r := sendChunks base cc rest
      (chunk :: r.1, r.2)
    else ([], true)

/-- Observable outcome of one poll cycle: the cache after the cycle, the
chunks actually handed to the webhook (as collected data), whether
`saveCache` ran, whether the auxiliary lookup request was issued, the
two gathered id sets, how many times `fandomLogin` was invoked by the
`catch`, and whether a non-auth error aborted the cycle. -/
structure CycleOutcome where
  cacheAfter : List Nat
  sent : List (List Data)
  persisted : Bool
  lookupIssued : Bool
  pageIds : List Nat
  userIds : List Nat
  reloginCount : Nat
  erroredOther : Bool
deriving DecidableEq

/-- DELIVERING and PERSISTING (source lines 251-261): when `embeds` is
non-empty it is reversed, chunked and sent; `saveCache` runs unless a
throw aborted delivery. -/
def deliver (base : Str) (cache2 : List Nat) (embeds : List Data)
    (pids uids : List Nat) (cc : ContainerCache) (issued : Bool) : CycleOutcome :=
  if embeds.isEmpty then
    { cacheAfter := cache2, sent := [], persisted := true, lookupIssued := issued,
      pageIds := pids, userIds := uids, reloginCount := 0, erroredOther := false }
  else if (sendChunks base cc (jsChunks embeds.reverse)).2 then
    { cacheAfter := cache2, sent := (sendChunks base cc (jsChunks embeds.reverse)).1,
      persisted := false, lookupIssued := issued,
      pageIds := pids, userIds := uids, reloginCount := 0, erroredOther := true }
  else
    { cacheAfter := cache2, sent := (sendChunks base cc (jsChunks embeds.reverse)).1,
      persisted := true, lookupIssued := issued,
      pageIds := pids, userIds := uids, reloginCount := 0, erroredOther := false }

/-- Per-cycle inputs: the outcome of the feed request and, if the cycle
gets that far, the outcome of the auxiliary lookup request. -/
structure TickInput where
  fetch : Except FetchErr Response
  lookup : Except FetchErr ContainerCache

/-- Embedding of one invocation of `ReportedPostsBot.poll` (source lines
194-266).  The `catch` (lines 262-265) maps a 403 to one `fandomLogin()`
invocation and anything else to a log line; in both cases the cycle ends
there: nothing further is fetched, sent or persisted within the cycle,
and cache mutations already made stand. -/
def pollCycle (base : Str) (cache : List Nat) (t : TickInput) : CycleOutcome :=
  match t.fetch with
  | .error .auth403 =>
    { cacheAfter := cache, sent := [], persisted := false, lookupIssued := false,
      pageIds := [], userIds := [], reloginCount := 1, erroredOther := false }
  | .error .other =>
    { cacheAfter := cache, sent := [], persisted := false, lookupIssued := false,
      pageIds := [], userIds := [], reloginCount := 0, erroredOther := true }
  | .ok resp =>
    match processPosts resp.wallOwners resp.posts cache [] [] [] with
    | (cache2, .error _) =>
      { cacheAfter := cache2, sent := [], persisted := false, lookupIssued := false,
        pageIds := [], userIds := [], reloginCount := 0, erroredOther := true }
    | (cache2, .ok (embeds, pids, uids)) =>
      if jsSetTruthy pids || jsSetTruthy uids then
        match t.lookup with
        | .error .auth403 =>
          { cacheAfter := cache2, sent := [], persisted := false, lookupIssued := true,
            pageIds := pids, userIds := uids, reloginCount := 1, erroredOther := false }
        | .error .other =>
          { cacheAfter := cache2, sent := [], persisted := false, lookupIssued := true,
            pageIds := pids, userIds := uids, reloginCount := 0, erroredOther := true }
        | .ok cc => deliver base cache2 embeds pids uids cc true
      else
        deliver base cache2 embeds pids uids emptyCC false

/-- Reading of the cycle following the words of claim C2 and spec
section 4.3: an HTTP 403 on the feed request triggers one re-login and
then the cycle is retried from FETCHING within the same cycle, consuming
a second fetch outcome.  Used only to compare with `pollCycle`, which is
translated from the source. -/
def pollCycleSpecRetry (base : Str) (cache : List Nat)
    (fetch1 fetch2 : Except FetchErr Response)
    (lookup : Except FetchErr ContainerCache) : CycleOutcome :=
  match fetch1 with
  | .error .auth403 =>
    let out := pollCycle base cache { fetch := fetch2, lookup := lookup }
    { out with reloginCount := out.reloginCount + 1 }
  | f => pollCycle base cache { fetch := f, lookup := lookup }

/-- The scheduled loop (source lines 182-186): one cycle per tick, the
cache carried from each cycle to the next (a correctly-persisting
ledger), every tick running regardless of how earlier cycles ended. -/
def runCycles (base : Str) (cache : List Nat) : List TickInput → List CycleOutcome
  | [] => []
  | t :: ts =>
    let out := pollCycle base cache t
    out :: runCycles base out.cacheAfter ts

/-- Number of delivered payloads of one cycle that reference report id
`i`. -/
def cycleRefs (i : Nat) (o : CycleOutcome) : Nat :=
  o.sent.flatten.countP (fun d => d.postId == i)

/-- Number of delivered payloads referencing report id `i` across a run
of cycles. -/
def totalRefs (i : Nat) (outs : List CycleOutcome) : Nat :=
  (outs.map (cycleRefs i)).sum


/-!  ## Concrete fixtures used by the claim theorems and witnesses -/

def baseWiki : Str := "https://x.fandom.com".data

/-- A fresh FORUM report, id 1. -/
def postForum1 : Post :=
  { id := 1, title := some ['t'], jsonModel := none, rawContent := ['r'],
    image := none, creationEpochSecond := 5, createdByName := ['u'],
    createdById := 9, createdByAvatar := [], threadId := 40,
    thread := some (litForum, 3) }

/-- A fresh WALL report, id 2, whose container id 7 has no wall-owner
entry. -/
def postWall2 : Post :=
  { id := 2, title := some ['w'], jsonModel := none, rawContent := ['r'],
    image := none, creationEpochSecond := 6, createdByName := ['u'],
    createdById := 9, createdByAvatar := [], threadId := 41,
    thread := some (litWall, 7) }

/-- The newest of three FORUM reports (upstream returns newest first). -/
def postNewR : Post :=
  { id := 13, title := some ['n'], jsonModel := none, rawContent := ['n'],
    image := none, creationEpochSecond := 30, createdByName := ['u'],
    createdById := 9, createdByAvatar := [], threadId := 50,
    thread := some (litForum, 3) }

def postMidR : Post :=
  { id := 12, title := some ['m'], jsonModel := none, rawContent := ['m'],
    image := none, creationEpochSecond := 20, createdByName := ['u'],
    createdById := 9, createdByAvatar := [], threadId := 51,
    thread := some (litForum, 3) }

def postOldR : Post :=
  { id := 11, title := some ['o'], jsonModel := none, rawContent := ['o'],
    image := none, creationEpochSecond := 10, createdByName := ['u'],
    createdById := 9, createdByAvatar := [], threadId := 52,
    thread := some (litForum, 3) }

/-- A fresh FORUM report, id 9, fetched by a retried cycle. -/
def postFresh9 : Post :=
  { id := 9, title := some ['f'], jsonModel := none, rawContent := ['f'],
    image := none, creationEpochSecond := 7, createdByName := ['u'],
    createdById := 9, createdByAvatar := [], threadId := 42,
    thread := some (litForum, 3) }

def respEmptyFeed : Response := { posts := [], wallOwners := none }

def respWallMissing : Response :=
  { posts := [postForum1, postWall2], wallOwners := some [] }

def respOrdered : Response :=
  { posts := [postNewR, postMidR, postOldR], wallOwners := none }

def respFresh : Response := { posts := [postFresh9], wallOwners := none }

def tickEmpty : TickInput := { fetch := .ok respEmptyFeed, lookup := .ok emptyCC }

def tickWallMissing : TickInput :=
  { fetch := .ok respWallMissing, lookup := .ok emptyCC }

def tickOrdered : TickInput := { fetch := .ok respOrdered, lookup := .ok emptyCC }

def tick403 : TickInput := { fetch := .error .auth403, lookup := .ok emptyCC }

/-- A cycle whose feed request succeeds but whose auxiliary lookup
request fails with HTTP 403. -/
def tickLookup403 : TickInput :=
  { fetch := .ok respOrdered, lookup := .error .auth403 }

/-- Interwiki with two dots, for claim C10. -/
def iwDouble : Str := "a.b.c".data
def domO : Str := "d".data
def urlDoubleCode : Str := "https://b.d/a".data
def urlDoubleSpec : Str := "https://b.c.d/a".data
def segA : Str := "a".data
def segB : Str := "b".data
def segC : Str := "c".data
def iwPlain : Str := "x".data

/-- An ADF document with one paragraph and no text leaves, for claim
C9. -/
def adfDocNoText : Json :=
  Json.objOf [(keyContent, Json.arrOf [Json.objOf
    [(keyType, Json.str litParagraph), (keyContent, Json.arrOf [])]])]

/-!  ## Lemmas about chunking and delivery -/

theorem jsChunks_nil {α : Type} : jsChunks ([] : List α) = [] := by
  simp [jsChunks]

theorem jsChunks_cons {α : Type} (l : List α) (h : l ≠ []) :
    jsChunks l = l.take 10 :: jsChunks (l.drop 10) := by
  have hpos : 0 < l.length := List.length_pos.mpr h
  have hk : (l.length + 9) / 10 = ((l.drop 10).length + 9) / 10 + 1 := by
    rw [List.length_drop]
    omega
  unfold jsChunks
  rw [hk, List.range_succ_eq_map, List.map_cons, List.map_map]
  refine congrArg₂ List.cons (by simp) ?_
  have hfun : ((fun i => (l.drop (i * 10)).take 10) ∘ Nat.succ) =
      (fun i => (((l.drop 10).drop (i * 10)).take 10 : List α)) := by
    funext i
    simp only [Function.comp_apply, List.drop_drop]
    rw [Nat.succ_mul]
    ring_nf
  rw [hfun]

theorem jsChunks_flatten {α : Type} (l : List α) : (jsChunks l).flatten = l := by
  by_cases h : l = []
  · subst h; rw [jsChunks_nil]; rfl
  · rw [jsChunks_cons l h, List.flatten_cons, jsChunks_flatten (l.drop 10),
      List.take_append_drop]
termination_by l.length
decreasing_by
  have : 0 < l.length := List.length_pos.mpr h
  rw [List.length_drop]
  omega

theorem jsChunks_len_le {α : Type} (l c : List α) (hc : c ∈ jsChunks l) :
    c.length ≤ 10 := by
  unfold jsChunks at hc
  rcases List.mem_map.mp hc with ⟨i, _, rfl⟩
  rw [List.length_take]
  omega

theorem jsChunks_ne_nil {α : Type} (l c : List α) (hc : c ∈ jsChunks l) :
    c ≠ [] := by
  unfold jsChunks at hc
  rcases List.mem_map.mp hc with ⟨i, hi, rfl⟩
  have hi2 : i < (l.length + 9) / 10 := List.mem_range.mp hi
  have h10 : (l.length + 9) / 10 * 10 ≤ l.length + 9 := Nat.div_mul_le_self _ _
  apply List.ne_nil_of_length_pos
  rw [List.length_take, List.length_drop]
  omega

theorem jsChunks_full {α : Type} (l : List α) (i : Nat)
    (h1 : i < (jsChunks l).length) (h2 : i + 1 < (jsChunks l).length) :
    ((jsChunks l)[i]).length = 10 := by
  have h10 : (l.length + 9) / 10 * 10 ≤ l.length + 9 := Nat.div_mul_le_self _ _
  have hlen : (jsChunks l).length = (l.length + 9) / 10 := by
    simp [jsChunks]
  rw [hlen] at h2
  simp only [jsChunks, List.getElem_map, List.getElem_range, List.length_take,
    List.length_drop]
  omega

theorem sendChunks_all_ok (base : Str) (cc : ContainerCache)
    (chunks : List (List Data))
    (h : ∀ c ∈ chunks, ∀ d ∈ c, exceptOk (generateEmbed base cc d) = true) :
    sendChunks base cc chunks = (chunks, false) := by
  induction chunks with
  | nil => rfl
  | cons c rest ih =>
    have hc : c.all (fun d => exceptOk (generateEmbed base cc d)) = true :=
      List.all_eq_true.mpr (fun d hd => h c (by simp) d hd)
    unfold sendChunks
    rw [hc]
    simp only [if_true]
    rw [ih (fun c2 hc2 d hd => h c2 (by simp [hc2]) d hd)]

theorem sendChunks_sent_mem (base : Str) (cc : ContainerCache)
    (chunks : List (List Data)) (d : Data)
    (hd : d ∈ (sendChunks base cc chunks).1.flatten) : d ∈ chunks.flatten := by
  induction chunks with
  | nil => simp [sendChunks] at hd
  | cons c rest ih =>
    unfold sendChunks at hd
    by_cases hc : c.all (fun d => exceptOk (generateEmbed base cc d)) = true
    · rw [hc] at hd
      simp only [if_true, List.flatten_cons, List.mem_append] at hd
      rcases hd with hd | hd
      · simp [List.flatten_cons, hd]
      · simp only [List.flatten_cons, List.mem_append]
        exact Or.inr (ih hd)
    · rw [Bool.not_eq_true] at hc
      rw [hc] at hd
      simp at hd

theorem sendChunks_countP (base : Str) (cc : ContainerCache)
    (chunks : List (List Data)) (q : Data → Bool) :
    (sendChunks base cc chunks).1.flatten.countP q ≤ chunks.flatten.countP q := by
  induction chunks with
  | nil => exact Nat.le_refl _
  | cons c rest ih =>
    unfold sendChunks
    by_cases hc : c.all (fun d => exceptOk (generateEmbed base cc d)) = true
    · rw [hc]
      simp only [if_true, List.flatten_cons, List.countP_append]
      omega
    · rw [Bool.not_eq_true] at hc
      rw [hc]
      simp

theorem deliver_cacheAfter (base : Str) (c2 : List Nat) (E : List Data)
    (pids uids : List Nat) (cc : ContainerCache) (iss : Bool) :
    (deliver base c2 E pids uids cc iss).cacheAfter = c2 := by
  unfold deliver
  split
  · rfl
  · split <;> rfl

theorem deliver_sent_cases (base : Str) (c2 : List Nat) (E : List Data)
    (pids uids : List Nat) (cc : ContainerCache) (iss : Bool) :
    (deliver base c2 E pids uids cc iss).sent = [] ∨
    (deliver base c2 E pids uids cc iss).sent =
      (sendChunks base cc (jsChunks E.reverse)).1 := by
  unfold deliver
  split
  · exact Or.inl rfl
  · split
    · exact Or.inr rfl
    · exact Or.inr rfl

theorem deliver_countP (base : Str) (c2 : List Nat) (E : List Data)
    (pids uids : List Nat) (cc : ContainerCache) (iss : Bool) (q : Data → Bool) :
    (deliver base c2 E pids uids cc iss).sent.flatten.countP q ≤ E.countP q := by
  rcases deliver_sent_cases base c2 E pids uids cc iss with h | h
  · rw [h]
    simp
  · rw [h]
    calc (sendChunks base cc (jsChunks E.reverse)).1.flatten.countP q
        ≤ (jsChunks E.reverse).flatten.countP q := sendChunks_countP _ _ _ _
      _ = E.reverse.countP q := by rw [jsChunks_flatten]
      _ = E.countP q := List.countP_reverse _ _

theorem deliver_sent_mem (base : Str) (c2 : List Nat) (E : List Data)
    (pids uids : List Nat) (cc : ContainerCache) (iss : Bool) (d : Data)
    (hd : d ∈ (deliver base c2 E pids uids cc iss).sent.flatten) : d ∈ E := by
  rcases deliver_sent_cases base c2 E pids uids cc iss with h | h
  · rw [h] at hd
    simp at hd
  · rw [h] at hd
    have := sendChunks_sent_mem base cc _ d hd
    rw [jsChunks_flatten] at this
    exact List.mem_reverse.mp this

/-!  ## Invariants of the FILTERING loop -/

theorem mkData_postId (p : Post) (o : Option Nat) : (mkData p o).postId = p.id := rfl

theorem pp_cache_mono (wo : Option (List WallOwner)) (posts : List Post) :
    ∀ (cache : List Nat) (e : List Data) (pi ui : List Nat) (x : Nat), x ∈ cache →
      x ∈ (processPosts wo posts cache e pi ui).1 := by
  induction posts with
  | nil =>
    intro cache e pi ui x hx
    simpa [processPosts] using hx
  | cons p rest ih =>
    intro cache e pi ui x hx
    unfold processPosts
    split
    · exact ih cache e pi ui x hx
    · split
      · exact ih _ _ _ _ x (by simp [hx])
      · split
        · exact ih _ _ _ _ x (by simp [hx])
        · split
          · split
            · simpa using Or.inr hx
            · exact ih _ _ _ _ x (by simp [hx])
          · exact ih _ _ _ _ x (by simp [hx])

theorem pp_all_ids (wo : Option (List WallOwner)) (posts : List Post) :
    ∀ (cache : List Nat) (e : List Data) (pi ui : List Nat)
      (E : List Data) (P U : List Nat),
      (processPosts wo posts cache e pi ui).2 = .ok (E, P, U) →
      ∀ p ∈ posts, p.id ∈ (processPosts wo posts cache e pi ui).1 := by
  induction posts with
  | nil =>
    intro cache e pi ui E P U _ p hp
    simp at hp
  | cons p rest ih =>
    intro cache e pi ui E P U hok q hq
    simp only [processPosts] at hok ⊢
    by_cases hc : cache.contains p.id = true
    · rw [if_pos hc] at hok ⊢
      rcases List.mem_cons.mp hq with rfl | hq2
      · exact pp_cache_mono wo rest cache e pi ui q.id (List.elem_iff.mp hc)
      · exact ih cache e pi ui E P U hok q hq2
    · rw [if_neg hc] at hok ⊢
      rcases hth : p.thread with _ | ⟨ct, cid⟩ <;> simp only [hth] at hok ⊢
      · rcases List.mem_cons.mp hq with rfl | hq2
        · exact pp_cache_mono wo rest _ _ _ _ q.id (by simp)
        · exact ih _ _ _ _ E P U hok q hq2
      · by_cases hac : ct = litArticleComment
        · rw [if_pos hac] at hok ⊢
          rcases List.mem_cons.mp hq with rfl | hq2
          · exact pp_cache_mono wo rest _ _ _ _ q.id (by simp)
          · exact ih _ _ _ _ E P U hok q hq2
        · rw [if_neg hac] at hok ⊢
          by_cases hw : ct = litWall
          · rw [if_pos hw] at hok ⊢
            rcases hwo : wallOwnerFor wo cid with _ | ownerId <;>
              simp only [hwo] at hok ⊢
            · simp at hok
            · rcases List.mem_cons.mp hq with rfl | hq2
              · exact pp_cache_mono wo rest _ _ _ _ q.id (by simp)
              · exact ih _ _ _ _ E P U hok q hq2
          · rw [if_neg hw] at hok ⊢
            rcases List.mem_cons.mp hq with rfl | hq2
            · exact pp_cache_mono wo rest _ _ _ _ q.id (by simp)
            · exact ih _ _ _ _ E P U hok q hq2

theorem pp_embeds_ids (wo : Option (List WallOwner)) (posts : List Post) :
    ∀ (cache : List Nat) (e : List Data) (pi ui : List Nat)
      (E : List Data) (P U : List Nat),
      (∀ d ∈ e, d.postId ∈ cache) →
      (processPosts wo posts cache e pi ui).2 = .ok (E, P, U) →
      ∀ d ∈ E, d.postId ∈ (processPosts wo posts cache e pi ui).1 := by
  induction posts with
  | nil =>
    intro cache e pi ui E P U he hok d hd
    simp only [processPosts] at hok ⊢
    simp at hok
    obtain ⟨rfl, rfl, rfl⟩ := hok
    exact he d hd
  | cons p rest ih =>
    intro cache e pi ui E P U he hok d hd
    simp only [processPosts] at hok ⊢
    by_cases hc : cache.contains p.id = true
    · rw [if_pos hc] at hok ⊢
      exact ih cache e pi ui E P U he hok d hd
    · rw [if_neg hc] at hok ⊢
      have hc2 : p.id ∉ cache := fun h => hc (List.elem_iff.mpr h)
      have hext : ∀ (o : Option Nat) d2, d2 ∈ e ++ [mkData p o] →
          d2.postId ∈ p.id :: cache := by
        intro o d2 hd2
        rcases List.mem_append.mp hd2 with h | h
        · exact List.mem_cons_of_mem _ (he d2 h)
        · simp at h
          subst h
          simp [mkData_postId]
      rcases hth : p.thread with _ | ⟨ct, cid⟩ <;> simp only [hth] at hok ⊢
      · exact ih _ _ _ _ E P U (hext none) hok d hd
      · by_cases hac : ct = litArticleComment
        · rw [if_pos hac] at hok ⊢
          exact ih _ _ _ _ E P U (hext none) hok d hd
        · rw [if_neg hac] at hok ⊢
          by_cases hw : ct = litWall
          · rw [if_pos hw] at hok ⊢
            rcases hwo : wallOwnerFor wo cid with _ | ownerId <;>
              simp only [hwo] at hok ⊢
            · simp at hok
            · exact ih _ _ _ _ E P U (hext (some ownerId)) hok d hd
          · rw [if_neg hw] at hok ⊢
            exact ih _ _ _ _ E P U (hext none) hok d hd

theorem pp_countP (wo : Option (List WallOwner)) (posts : List Post) (i : Nat) :
    ∀ (cache : List Nat) (e : List Data) (pi ui : List Nat)
      (E : List Data) (P U : List Nat),
      (processPosts wo posts cache e pi ui).2 = .ok (E, P, U) →
      E.countP (fun d => d.postId == i) ≤
        e.countP (fun d => d.postId == i) + (if i ∈ cache then 0 else 1) := by
  induction posts with
  | nil =>
    intro cache e pi ui E P U hok
    simp only [processPosts] at hok
    simp at hok
    obtain ⟨rfl, rfl, rfl⟩ := hok
    exact Nat.le_add_right _ _
  | cons p rest ih =>
    intro cache e pi ui E P U hok
    simp only [processPosts] at hok
    by_cases hc : cache.contains p.id = true
    · rw [if_pos hc] at hok
      exact ih cache e pi ui E P U hok
    · rw [if_neg hc] at hok
      have hc2 : p.id ∉ cache := fun h => hc (List.elem_iff.mpr h)
      have key : ∀ (o : Option Nat) (pi2 ui2 : List Nat),
          (processPosts wo rest (p.id :: cache) (e ++ [mkData p o]) pi2 ui2).2 =
            .ok (E, P, U) →
          E.countP (fun d => d.postId == i) ≤
            e.countP (fun d => d.postId == i) + (if i ∈ cache then 0 else 1) := by
        intro o pi2 ui2 hok2
        have h2 := ih (p.id :: cache) (e ++ [mkData p o]) pi2 ui2 E P U hok2
        rw [List.countP_append, List.countP_cons, List.countP_nil] at h2
        simp only [mkData_postId] at h2
        by_cases hpi : p.id = i
        · have hmem : i ∉ cache := fun h => hc2 (hpi ▸ h)
          have ea : (if (p.id == i) = true then 1 else 0) = 1 :=
            if_pos (beq_iff_eq.mpr hpi)
          have eb : (if i ∈ p.id :: cache then 0 else 1) = 0 :=
            if_pos (by simp [hpi])
          have ec : (if i ∈ cache then 0 else 1) = 1 := if_neg hmem
          simp only [ea, eb] at h2
          simp only [ec]
          omega
        · have ea : (if (p.id == i) = true then 1 else 0) = 0 :=
            if_neg (by simp [hpi])
          simp only [ea] at h2
          by_cases hmem : i ∈ cache
          · have eb : (if i ∈ p.id :: cache then 0 else 1) = 0 :=
              if_pos (List.mem_cons_of_mem _ hmem)
            have ec : (if i ∈ cache then 0 else 1) = 0 := if_pos hmem
            simp only [eb] at h2
            simp only [ec]
            omega
          · have eb : (if i ∈ p.id :: cache then 0 else 1) = 1 :=
              if_neg (by
                simp only [List.mem_cons]
                rintro (h | h)
                · exact hpi h.symm
                · exact hmem h)
            have ec : (if i ∈ cache then 0 else 1) = 1 := if_neg hmem
            simp only [eb] at h2
            simp only [ec]
            omega
      rcases hth : p.thread with _ | ⟨ct, cid⟩ <;> simp only [hth] at hok
      · exact key none pi ui hok
      · by_cases hac : ct = litArticleComment
        · rw [if_pos hac] at hok
          exact key none (setAdd pi cid) ui hok
        · rw [if_neg hac] at hok
          by_cases hw : ct = litWall
          · rw [if_pos hw] at hok
            rcases hwo : wallOwnerFor wo cid with _ | ownerId <;>
              simp only [hwo] at hok
            · simp at hok
            · exact key (some ownerId) pi (setAdd ui ownerId) hok
          · rw [if_neg hw] at hok
            exact key none pi ui hok

theorem pp_skip_all (wo : Option (List WallOwner)) (posts : List Post) :
    ∀ (cache : List Nat) (e : List Data) (pi ui : List Nat),
      (∀ p ∈ posts, p.id ∈ cache) →
      processPosts wo posts cache e pi ui = (cache, .ok (e, pi, ui)) := by
  induction posts with
  | nil =>
    intro cache e pi ui _
    simp [processPosts]
  | cons p rest ih =>
    intro cache e pi ui h
    simp only [processPosts]
    rw [if_pos (List.elem_iff.mpr (h p (by simp)))]
    exact ih cache e pi ui (fun q hq => h q (by simp [hq]))

/-!  ## Per-cycle consequences -/

theorem pollCycle_cache_mono (base : Str) (cache : List Nat) (t : TickInput)
    (x : Nat) (hx : x ∈ cache) : x ∈ (pollCycle base cache t).cacheAfter := by
  obtain ⟨f, lk⟩ := t
  cases f with
  | error e => cases e <;> exact hx
  | ok resp =>
    simp only [pollCycle]
    rcases hpp : processPosts resp.wallOwners resp.posts cache [] [] [] with ⟨c2, r⟩
    have hcm : x ∈ c2 := by
      have h := pp_cache_mono resp.wallOwners resp.posts cache [] [] [] x hx
      rw [hpp] at h
      exact h
    cases r with
    | error u => exact hcm
    | ok tup =>
      obtain ⟨E, P, U⟩ := tup
      cases lk with
      | error e2 => cases e2 <;> exact hcm
      | ok cc =>
        show x ∈ (deliver base c2 E P U cc true).cacheAfter
        rw [deliver_cacheAfter]
        exact hcm

theorem pollCycle_refs_cached (base : Str) (cache : List Nat) (t : TickInput)
    (i : Nat) (hi : i ∈ cache) : cycleRefs i (pollCycle base cache t) = 0 := by
  obtain ⟨f, lk⟩ := t
  cases f with
  | error e => cases e <;> rfl
  | ok resp =>
    simp only [pollCycle, cycleRefs]
    rcases hpp : processPosts resp.wallOwners resp.posts cache [] [] [] with ⟨c2, r⟩
    cases r with
    | error u => rfl
    | ok tup =>
      obtain ⟨E, P, U⟩ := tup
      have hcount := pp_countP resp.wallOwners resp.posts i cache [] [] [] E P U
        (by rw [hpp])
      have hE : E.countP (fun d => d.postId == i) = 0 := by
        rw [List.countP_nil, if_pos hi] at hcount
        omega
      cases lk with
      | error e2 => cases e2 <;> rfl
      | ok cc =>
        show (deliver base c2 E P U cc true).sent.flatten.countP
          (fun d => d.postId == i) = 0
        have := deliver_countP base c2 E P U cc true (fun d => d.postId == i)
        omega

theorem pollCycle_refs_le_one (base : Str) (cache : List Nat) (t : TickInput)
    (i : Nat) : cycleRefs i (pollCycle base cache t) ≤ 1 := by
  obtain ⟨f, lk⟩ := t
  cases f with
  | error e => cases e <;> exact Nat.zero_le _
  | ok resp =>
    simp only [pollCycle, cycleRefs]
    rcases hpp : processPosts resp.wallOwners resp.posts cache [] [] [] with ⟨c2, r⟩
    cases r with
    | error u => exact Nat.zero_le _
    | ok tup =>
      obtain ⟨E, P, U⟩ := tup
      have hcount := pp_countP resp.wallOwners resp.posts i cache [] [] [] E P U
        (by rw [hpp])
      have hE : E.countP (fun d => d.postId == i) ≤ 1 := by
        rw [List.countP_nil] at hcount
        by_cases hi : i ∈ cache
        · rw [if_pos hi] at hcount
          omega
        · rw [if_neg hi] at hcount
          omega
      cases lk with
      | error e2 => cases e2 <;> exact Nat.zero_le _
      | ok cc =>
        show (deliver base c2 E P U cc true).sent.flatten.countP
          (fun d => d.postId == i) ≤ 1
        have := deliver_countP base c2 E P U cc true (fun d => d.postId == i)
        omega

theorem pollCycle_sent_postId_mem (base : Str) (cache : List Nat)
    (t : TickInput) (d : Data) (hd : d ∈ (pollCycle base cache t).sent.flatten) :
    d.postId ∈ (pollCycle base cache t).cacheAfter := by
  obtain ⟨f, lk⟩ := t
  cases f with
  | error e => cases e <;> simp [pollCycle] at hd
  | ok resp =>
    unfold pollCycle at hd ⊢
    dsimp only at hd ⊢
    rcases hpp : processPosts resp.wallOwners resp.posts cache [] [] [] with ⟨c2, r⟩
    rw [hpp] at hd
    cases r with
    | error u => simp at hd
    | ok tup =>
      obtain ⟨E, P, U⟩ := tup
      cases lk with
      | error e2 => cases e2 <;> simp [jsSetTruthy] at hd
      | ok cc =>
        have hd2 : d ∈ (deliver base c2 E P U cc true).sent.flatten := by
          simpa [jsSetTruthy, List.mem_flatten] using hd
        have hdE : d ∈ E := deliver_sent_mem base c2 E P U cc true d hd2
        show d.postId ∈ (deliver base c2 E P U cc true).cacheAfter
        rw [deliver_cacheAfter]
        have h := pp_embeds_ids resp.wallOwners resp.posts cache [] [] [] E P U
          (by simp) (by rw [hpp]) d hdE
        rw [hpp] at h
        exact h

theorem pollCycle_second_run (base : Str) (cache : List Nat) (t : TickInput)
    (hne : (pollCycle base cache t).erroredOther = false)
    (hnr : (pollCycle base cache t).reloginCount = 0)
    (t2 : TickInput) (hf : t2.fetch = t.fetch) :
    (pollCycle base (pollCycle base cache t).cacheAfter t2).sent = [] ∧
    (pollCycle base (pollCycle base cache t).cacheAfter t2).cacheAfter =
      (pollCycle base cache t).cacheAfter := by
  obtain ⟨f, lk⟩ := t
  obtain ⟨f2, lk2⟩ := t2
  simp only at hf
  subst hf
  cases f2 with
  | error e =>
    cases e with
    | auth403 => simp [pollCycle] at hnr
    | other => simp [pollCycle] at hne
  | ok resp =>
    rcases hpp : processPosts resp.wallOwners resp.posts cache [] [] [] with ⟨c2, r⟩
    cases r with
    | error u =>
      rw [show (pollCycle base cache ⟨.ok resp, lk⟩).erroredOther = true by
        simp only [pollCycle]; rw [hpp]] at hne
      exact absurd hne (by simp)
    | ok tup =>
      obtain ⟨E, P, U⟩ := tup
      have hall : ∀ p ∈ resp.posts, p.id ∈ c2 := by
        intro p hp
        have h := pp_all_ids resp.wallOwners resp.posts cache [] [] [] E P U
          (by rw [hpp]) p hp
        rw [hpp] at h
        exact h
      have hskip : processPosts resp.wallOwners resp.posts c2 [] [] [] =
          (c2, .ok ([], [], [])) := pp_skip_all _ _ c2 [] [] [] hall
      have hca : (pollCycle base cache ⟨.ok resp, lk⟩).cacheAfter = c2 := by
        cases lk with
        | error e2 =>
          cases e2 with
          | auth403 =>
            rw [show (pollCycle base cache ⟨.ok resp, .error .auth403⟩).reloginCount
              = 1 by simp only [pollCycle]; rw [hpp]; simp [jsSetTruthy]] at hnr
            exact absurd hnr (by simp)
          | other =>
            rw [show (pollCycle base cache ⟨.ok resp, .error .other⟩).erroredOther
              = true by simp only [pollCycle]; rw [hpp]; simp [jsSetTruthy]] at hne
            exact absurd hne (by simp)
        | ok cc =>
          show (pollCycle base cache ⟨.ok resp, .ok cc⟩).cacheAfter = c2
          simp only [pollCycle]
          rw [hpp]
          exact deliver_cacheAfter base c2 E P U cc true
      rw [hca]
      cases lk2 with
      | error e2 => cases e2 <;> simp [pollCycle, hskip, jsSetTruthy]
      | ok cc2 => simp [pollCycle, hskip, deliver, jsSetTruthy]

/-!  ## Across cycles -/

theorem runCycles_refs_zero (base : Str) (i : Nat) (ts : List TickInput) :
    ∀ cache : List Nat, i ∈ cache → totalRefs i (runCycles base cache ts) = 0 := by
  induction ts with
  | nil => intro cache _; rfl
  | cons t ts2 ih =>
    intro cache hi
    simp only [runCycles, totalRefs, List.map_cons, List.sum_cons]
    have h1 := pollCycle_refs_cached base cache t i hi
    have h2 := ih (pollCycle base cache t).cacheAfter
      (pollCycle_cache_mono base cache t i hi)
    simp only [totalRefs] at h2
    omega

theorem runCycles_refs_le_one (base : Str) (i : Nat) (ts : List TickInput) :
    ∀ cache : List Nat, totalRefs i (runCycles base cache ts) ≤ 1 := by
  induction ts with
  | nil => intro cache; simp [runCycles, totalRefs]
  | cons t ts2 ih =>
    intro cache
    simp only [runCycles, totalRefs, List.map_cons, List.sum_cons]
    by_cases h0 : cycleRefs i (pollCycle base cache t) = 0
    · have h2 := ih (pollCycle base cache t).cacheAfter
      simp only [totalRefs] at h2
      omega
    · have h1 : 0 < cycleRefs i (pollCycle base cache t) := Nat.pos_of_ne_zero h0
      have hle := pollCycle_refs_le_one base cache t i
      unfold cycleRefs at h1
      obtain ⟨d, hd, hdi⟩ := List.countP_pos_iff.mp h1
      have hmem : i ∈ (pollCycle base cache t).cacheAfter := by
        have h := pollCycle_sent_postId_mem base cache t d hd
        rwa [beq_iff_eq.mp hdi] at h
      have hrest := runCycles_refs_zero base i ts2
        (pollCycle base cache t).cacheAfter hmem
      simp only [totalRefs] at hrest
      omega

/-!  ## Further helper lemmas -/

theorem deliver_err_not_persisted (base : Str) (c2 : List Nat) (E : List Data)
    (pids uids : List Nat) (cc : ContainerCache) (iss : Bool)
    (h : (deliver base c2 E pids uids cc iss).erroredOther = true) :
    (deliver base c2 E pids uids cc iss).persisted = false := by
  unfold deliver at h ⊢
  by_cases h1 : E.isEmpty = true
  · rw [if_pos h1] at h
    simp at h
  · rw [if_neg h1] at h ⊢
    by_cases h2 : (sendChunks base cc (jsChunks E.reverse)).2 = true
    · rw [if_pos h2]
    · rw [if_neg h2] at h
      simp at h

theorem pollCycle_cacheAfter_ok (base : Str) (cache : List Nat)
    (resp : Response) (lk : Except FetchErr ContainerCache) :
    (pollCycle base cache ⟨.ok resp, lk⟩).cacheAfter =
      (processPosts resp.wallOwners resp.posts cache [] [] []).1 := by
  unfold pollCycle
  dsimp only
  rcases hpp : processPosts resp.wallOwners resp.posts cache [] [] [] with ⟨c2, r⟩
  cases r with
  | error u => rfl
  | ok tup =>
    obtain ⟨E, P, U⟩ := tup
    cases lk with
    | error e2 => cases e2 <;> rfl
    | ok cc => exact deliver_cacheAfter base c2 E P U cc true

theorem adfParas_no_text (items : List Json)
    (h : ∀ p ∈ items, paraContrib p = .ok [] ∨ paraContrib p = .error ()) :
    adfParas items [] = [] := by
  induction items with
  | nil => rfl
  | cons p rest ih =>
    unfold adfParas
    rcases h p (by simp) with hp | hp
    · rw [hp]
      simpa using ih (fun q hq => h q (by simp [hq]))
    · rw [hp]

theorem jsSplit_no_sep (sep : Char) (s : Str) (h : sep ∉ s) :
    jsSplit sep s = [s] := by
  induction s with
  | nil => rfl
  | cons c rest ih =>
    have hc : ¬ c = sep := fun hh => h (hh ▸ List.mem_cons_self c rest)
    have ih2 := ih (fun hm => h (List.mem_cons_of_mem c hm))
    simp only [jsSplit]
    rw [if_neg hc, ih2]

theorem jsSplit_sep_append (sep : Char) (l r : Str) (hl : sep ∉ l) :
    jsSplit sep (l ++ sep :: r) = l :: jsSplit sep r := by
  induction l with
  | nil =>
    simp [jsSplit]
  | cons c rest ih =>
    have hc : ¬ c = sep := fun hh => hl (hh ▸ List.mem_cons_self c rest)
    have ih2 := ih (fun hm => hl (List.mem_cons_of_mem c hm))
    simp only [List.cons_append, jsSplit, List.append_eq]
    rw [if_neg hc, ih2]

theorem contains_append_sep (l r : Str) : (l ++ '.' :: r).contains '.' = true :=
  List.elem_iff.mpr (by simp)


theorem pp_nodup (wo : Option (List WallOwner)) (posts : List Post) :
    ∀ (cache : List Nat) (e : List Data) (pi ui : List Nat), cache.Nodup →
      (processPosts wo posts cache e pi ui).1.Nodup := by
  induction posts with
  | nil =>
    intro cache e pi ui h
    simpa [processPosts] using h
  | cons p rest ih =>
    intro cache e pi ui h
    simp only [processPosts]
    by_cases hc : cache.contains p.id = true
    · rw [if_pos hc]
      exact ih cache e pi ui h
    · rw [if_neg hc]
      have h2 : (p.id :: cache).Nodup :=
        List.nodup_cons.mpr ⟨fun hm => hc (List.elem_iff.mpr hm), h⟩
      rcases hth : p.thread with _ | ⟨ct, cid⟩ <;> simp only [hth]
      · exact ih _ _ _ _ h2
      · by_cases hac : ct = litArticleComment
        · rw [if_pos hac]
          exact ih _ _ _ _ h2
        · rw [if_neg hac]
          by_cases hw : ct = litWall
          · rw [if_pos hw]
            rcases hwo : wallOwnerFor wo cid with _ | ownerId <;>
              simp only [hwo]
            · exact h2
            · exact ih _ _ _ _ h2
          · rw [if_neg hw]
            exact ih _ _ _ _ h2

theorem pollCycle_cacheAfter_nodup (base : Str) (cache : List Nat)
    (t : TickInput) (h : cache.Nodup) :
    (pollCycle base cache t).cacheAfter.Nodup := by
  obtain ⟨f, lk⟩ := t
  cases f with
  | error e => cases e <;> exact h
  | ok resp =>
    rw [pollCycle_cacheAfter_ok base cache resp lk]
    exact pp_nodup resp.wallOwners resp.posts cache [] [] [] h

/-!  ## Claim theorems -/

/-- C7: the claim asserts that on login failure the Session Manager
retries indefinitely with a fixed 10-second delay and never propagates
the failure, and that for every finite sequence of failures followed by
a success `run()` proceeds past login.  The retry part holds, but the
promise awaited by `run` resolves only when the FIRST attempt succeeds:
with outcomes `[failure, success]` the retry chain logs in after one
10-second delay, yet `run` never reaches polling — the code contradicts
the claim (and its own intent). -/
theorem claim_C7_login_retry_blocks_run :
    loginEventuallySucceeds [false, true] = true ∧
    loginAttemptsUsed [false, true] = 2 ∧
    loginDelaysMs [false, true] = 10000 ∧
    runReachesPoll [true] = true ∧
    runReachesPoll [false, true] = false ∧
    (∀ k : Nat, loginAttemptsUsed (List.replicate k false ++ [true]) = k + 1) ∧
    (∀ k : Nat, loginDelaysMs (List.replicate k false ++ [true]) = 10000 * k) ∧
    (∀ k : Nat, runReachesPoll (List.replicate (k + 1) false ++ [true]) = false) := by
  refine ⟨by decide, by decide, by decide, by decide, by decide, ?_, ?_, ?_⟩
  · intro k
    induction k with
    | zero => decide
    | succ n ih =>
      rw [List.replicate_succ, List.cons_append]
      simp only [loginAttemptsUsed]
      omega
  · intro k
    induction k with
    | zero => decide
    | succ n ih =>
      rw [List.replicate_succ, List.cons_append]
      simp only [loginDelaysMs]
      omega
  · intro k
    rw [List.replicate_succ, List.cons_append]
    simp [runReachesPoll, fandomLoginResolves]

/-- C10 counterexample: the claim says a dotted interwiki is split at
the FIRST dot, the subdomain being everything after it.  On the
two-dot interwiki `a.b.c` the code destructures the full split and keeps
only the first two segments, producing `https://b.d/a`, not the
`https://b.c.d/a` that the claim describes. -/
theorem claim_C10_counterexample :
    getWikiUrl iwDouble domO = urlDoubleCode ∧
    getWikiUrlSpec iwDouble domO = urlDoubleSpec ∧
    getWikiUrl iwDouble domO ≠ getWikiUrlSpec iwDouble domO := by
  refine ⟨by decide, by decide, by decide⟩

/-- C10 amended: for a dotted interwiki the language is the segment
before the first dot and the subdomain is the segment between the first
and the second dot — segments after the second dot are discarded — and
the base URL is the subdomain-plus-domain host with the language as a
path suffix; a dot-free interwiki yields the interwiki-plus-domain host
with no path. -/
theorem claim_C10_amended (l s t domain : Str)
    (hl : '.' ∉ l) (hs : '.' ∉ s) :
    getWikiUrl (l ++ '.' :: s) domain =
      litHttps ++ s ++ litDot ++ domain ++ litSlash ++ l ∧
    getWikiUrl (l ++ '.' :: (s ++ '.' :: t)) domain =
      litHttps ++ s ++ litDot ++ domain ++ litSlash ++ l ∧
    (∀ iw : Str, '.' ∉ iw →
      getWikiUrl iw domain = litHttps ++ iw ++ litDot ++ domain) := by
  refine ⟨?_, ?_, ?_⟩
  · unfold getWikiUrl
    rw [if_pos (contains_append_sep l s)]
    rw [jsSplit_sep_append '.' l s hl, jsSplit_no_sep '.' s hs]
    rfl
  · unfold getWikiUrl
    rw [if_pos (contains_append_sep l (s ++ '.' :: t))]
    rw [jsSplit_sep_append '.' l (s ++ '.' :: t) hl,
      jsSplit_sep_append '.' s t hs]
    rfl
  · intro iw hiw
    unfold getWikiUrl
    rw [if_neg (by
      intro hcon
      exact hiw (List.elem_iff.mp hcon))]

/-- C10 amended, witness at the interwiki segments a, b, c and domain
d. -/
theorem claim_C10_amended_witness :
    getWikiUrl (segA ++ '.' :: segB) domO =
      litHttps ++ segB ++ litDot ++ domO ++ litSlash ++ segA ∧
    getWikiUrl (segA ++ '.' :: (segB ++ '.' :: segC)) domO =
      litHttps ++ segB ++ litDot ++ domO ++ litSlash ++ segA ∧
    getWikiUrl iwPlain domO = litHttps ++ iwPlain ++ litDot ++ domO := by
  have h := claim_C10_amended segA segB segC domO (by decide) (by decide)
  exact ⟨h.1, h.2.1, h.2.2 iwPlain (by decide)⟩

/-- C4: the claim says the auxiliary lookup request is issued if and
only if at least one of the two collected id sets is non-empty.  The
source tests `if (pageIds || userIds)`, and a JS `Set` object is always
truthy, so the request is issued even in a cycle in which both sets are
empty: with an empty feed, both sets are empty and the lookup is issued
all the same.  The spec itself flags this check as a bug in the source,
so the claim states the intent and the code is the slip. -/
theorem claim_C4_lookup_always_issued :
    (pollCycle baseWiki [] tickEmpty).pageIds = [] ∧
    (pollCycle baseWiki [] tickEmpty).userIds = [] ∧
    (pollCycle baseWiki [] tickEmpty).sent = [] ∧
    (pollCycle baseWiki [] tickEmpty).lookupIssued = true ∧
    jsSetTruthy [] = true := by
  refine ⟨by decide, by decide, by decide, by decide, by decide⟩

/-- C5: the claim says an accepted WALL report whose container id has no
wall-owner entry is skipped silently while the rest of the cycle is
still delivered.  In the source the `.userId` read on the failed `find`
throws, the exception reaches the cycle-level catch, and the WHOLE cycle
aborts: with a fresh FORUM report followed by such a WALL report,
nothing at all is delivered (and both ids are already in the ledger, so
neither report is ever delivered later).  The spec itself notes this
null-dereference as a defect of the source, so the claim states the
intent and the code is the slip. -/
theorem claim_C5_unresolved_wall_owner_aborts_cycle :
    wallOwnerFor (some []) 7 = none ∧
    (pollCycle baseWiki [] tickWallMissing).erroredOther = true ∧
    (pollCycle baseWiki [] tickWallMissing).sent = [] ∧
    (pollCycle baseWiki [] tickWallMissing).cacheAfter = [2, 1] ∧
    (pollCycle baseWiki [] tickWallMissing).persisted = false := by
  refine ⟨by decide, by decide, by decide, by decide, by decide⟩

/-- C2 counterexample: the claim says a 403 makes the poller re-login
and then RETRY the same cycle from FETCHING within that cycle.  The
source catch merely fires one `fandomLogin()` and ends the cycle: on a
403 nothing is fetched again and nothing is sent within the cycle,
whereas the spec-described retry would deliver the freshly fetched
report in the same cycle. -/
theorem claim_C2_counterexample :
    (pollCycle baseWiki [] tick403).sent = [] ∧
    (pollCycle baseWiki [] tick403).cacheAfter = [] ∧
    (pollCycleSpecRetry baseWiki [] (.error .auth403) (.ok respFresh)
      (.ok emptyCC)).sent = [[mkData postFresh9 none]] ∧
    (pollCycle baseWiki [] tick403).sent ≠
      (pollCycleSpecRetry baseWiki [] (.error .auth403) (.ok respFresh)
        (.ok emptyCC)).sent := by
  refine ⟨by decide, by decide, by decide, by decide⟩

/-- C2 amended: whichever of the two upstream requests of a cycle fails
with HTTP 403 — the feed fetch or the auxiliary lookup — the catch
triggers exactly one `fandomLogin()` invocation and the cycle ends
there: nothing is sent and nothing is persisted in that cycle, and the
cycle is NOT retried from FETCHING — fetching resumes only at the next
scheduled tick.  A feed-403 leaves the ledger untouched; a lookup-403
keeps exactly the ids that FILTERING of that cycle already added.  In
neither case (nor in any other cycle) does the ledger acquire duplicate
entries, since an id is only added when it is not yet present. -/
theorem claim_C2_amended (base : Str) (cache : List Nat) (t : TickInput)
    (ts : List TickInput) :
    (t.fetch = .error .auth403 →
      (pollCycle base cache t).reloginCount = 1 ∧
      (pollCycle base cache t).sent = [] ∧
      (pollCycle base cache t).persisted = false ∧
      (pollCycle base cache t).cacheAfter = cache) ∧
    (∀ resp, t.fetch = .ok resp → t.lookup = .error .auth403 →
      ∀ (c2 : List Nat) (E : List Data) (P U : List Nat),
        processPosts resp.wallOwners resp.posts cache [] [] [] =
          (c2, .ok (E, P, U)) →
        (pollCycle base cache t).reloginCount = 1 ∧
        (pollCycle base cache t).sent = [] ∧
        (pollCycle base cache t).persisted = false ∧
        (pollCycle base cache t).cacheAfter = c2) ∧
    (cache.Nodup → (pollCycle base cache t).cacheAfter.Nodup) ∧
    runCycles base cache (t :: ts) =
      pollCycle base cache t ::
        runCycles base (pollCycle base cache t).cacheAfter ts := by
  refine ⟨?_, ?_, fun h => pollCycle_cacheAfter_nodup base cache t h, rfl⟩
  · intro hf
    obtain ⟨f, lk⟩ := t
    simp only at hf
    subst hf
    exact ⟨rfl, rfl, rfl, rfl⟩
  · intro resp hf hlk c2 E P U hpp
    obtain ⟨f, lk⟩ := t
    simp only at hf hlk
    subst hf
    subst hlk
    unfold pollCycle
    dsimp only
    rw [hpp]
    exact ⟨rfl, rfl, rfl, rfl⟩

/-- C2 amended, witness: a feed-403 cycle triggers one re-login and
leaves the ledger untouched; a lookup-403 cycle triggers one re-login,
sends nothing, persists nothing and keeps exactly the three ids its
FILTERING added; and the cache after such a cycle stays free of
duplicates. -/
theorem claim_C2_witness :
    ((pollCycle baseWiki [] tick403).reloginCount = 1 ∧
      (pollCycle baseWiki [] tick403).cacheAfter = []) ∧
    ((pollCycle baseWiki [] tickLookup403).reloginCount = 1 ∧
      (pollCycle baseWiki [] tickLookup403).sent = [] ∧
      (pollCycle baseWiki [] tickLookup403).persisted = false ∧
      (pollCycle baseWiki [] tickLookup403).cacheAfter = [11, 12, 13]) ∧
    (pollCycle baseWiki [] tickLookup403).cacheAfter.Nodup := by
  have h1 := claim_C2_amended baseWiki [] tick403 []
  have h2 := claim_C2_amended baseWiki [] tickLookup403 []
  have ha := h1.1 rfl
  have hb := h2.2.1 respOrdered rfl rfl [11, 12, 13]
    [mkData postNewR none, mkData postMidR none, mkData postOldR none] [] [] rfl
  exact ⟨⟨ha.1, ha.2.2.2⟩, ⟨hb.1, hb.2.1, hb.2.2.1, hb.2.2.2⟩,
    h2.2.2.1 List.nodup_nil⟩

/-- C3: a poll cycle that aborts with a non-authentication error
performs no ledger persistence, rolls nothing back — the initial ledger
and every id added during the aborted FILTERING remain in the in-memory
ledger (when the feed was fetched, the cache after the cycle is exactly
the cache produced by the filtering loop) — and the loop simply carries
on with the next scheduled tick. -/
theorem claim_C3_abort_semantics (base : Str) (cache : List Nat) (t : TickInput)
    (ts : List TickInput)
    (habort : (pollCycle base cache t).erroredOther = true) :
    (pollCycle base cache t).persisted = false ∧
    (∀ x ∈ cache, x ∈ (pollCycle base cache t).cacheAfter) ∧
    (∀ resp, t.fetch = .ok resp →
      (pollCycle base cache t).cacheAfter =
        (processPosts resp.wallOwners resp.posts cache [] [] []).1) ∧
    runCycles base cache (t :: ts) =
      pollCycle base cache t ::
        runCycles base (pollCycle base cache t).cacheAfter ts := by
  refine ⟨?_, fun x hx => pollCycle_cache_mono base cache t x hx, ?_, rfl⟩
  · obtain ⟨f, lk⟩ := t
    cases f with
    | error e => cases e <;> rfl
    | ok resp =>
      unfold pollCycle at habort ⊢
      dsimp only at habort ⊢
      rcases hpp : processPosts resp.wallOwners resp.posts cache [] [] [] with ⟨c2, r⟩
      rw [hpp] at habort
      cases r with
      | error u => rfl
      | ok tup =>
        obtain ⟨E, P, U⟩ := tup
        cases lk with
        | error e2 => cases e2 <;> rfl
        | ok cc =>
          exact deliver_err_not_persisted base c2 E P U cc true habort
  · intro resp hresp
    obtain ⟨f, lk⟩ := t
    simp only at hresp
    subst hresp
    exact pollCycle_cacheAfter_ok base cache resp lk

/-- C3 witness: the concrete aborting cycle (a WALL report with no
wall-owner entry) persists nothing, keeps the filtered cache, and the
loop formulation carries on. -/
theorem claim_C3_witness :
    (pollCycle baseWiki [] tickWallMissing).persisted = false ∧
    (pollCycle baseWiki [] tickWallMissing).cacheAfter =
      (processPosts respWallMissing.wallOwners respWallMissing.posts
        [] [] [] []).1 ∧
    runCycles baseWiki [] (tickWallMissing :: []) =
      pollCycle baseWiki [] tickWallMissing ::
        runCycles baseWiki (pollCycle baseWiki [] tickWallMissing).cacheAfter [] := by
  have h := claim_C3_abort_semantics baseWiki [] tickWallMissing [] (by decide)
  exact ⟨h.1, h.2.2.1 respWallMissing rfl, h.2.2.2⟩

/-- C6: delivery reverses the accepted payload list (fetched newest
first) and sends it as consecutive chunks of at most 10: the chunks
concatenate back to the reversed list, every chunk is non-empty with at
most 10 payloads, every chunk but the last has exactly 10, 25 payloads
produce chunk sizes 10, 10 and 5, and for a successful cycle the sent
chunks are exactly the chunking of the reversed accepted list — in
particular reports fetched new, mid, old go out as old, mid, new. -/
theorem claim_C6_delivery_order_and_chunking (l : List Data) (base : Str)
    (cache : List Nat) (t : TickInput) (resp : Response) (cc : ContainerCache)
    (c2 : List Nat) (E : List Data) (P U : List Nat) :
    (jsChunks l.reverse).flatten = l.reverse ∧
    (∀ c ∈ jsChunks l.reverse, c.length ≤ 10 ∧ c ≠ []) ∧
    (∀ i : Nat, ∀ h1 : i < (jsChunks l.reverse).length,
      i + 1 < (jsChunks l.reverse).length →
      ((jsChunks l.reverse)[i]).length = 10) ∧
    ((jsChunks (List.range 25)).map List.length = [10, 10, 5]) ∧
    (t.fetch = .ok resp → t.lookup = .ok cc →
      processPosts resp.wallOwners resp.posts cache [] [] [] =
        (c2, .ok (E, P, U)) →
      (∀ d ∈ E, exceptOk (generateEmbed base cc d) = true) →
      (pollCycle base cache t).sent = jsChunks E.reverse) ∧
    (pollCycle baseWiki [] tickOrdered).sent =
      [[mkData postOldR none, mkData postMidR none, mkData postNewR none]] := by
  refine ⟨jsChunks_flatten l.reverse,
    fun c hc => ⟨jsChunks_len_le _ c hc, jsChunks_ne_nil _ c hc⟩,
    fun i h1 h2 => jsChunks_full _ i h1 h2, by decide, ?_, by decide⟩
  intro hf hlk hpp hgen
  obtain ⟨f, lk⟩ := t
  simp only at hf hlk
  subst hf
  subst hlk
  unfold pollCycle
  dsimp only
  rw [hpp]
  show (deliver base c2 E P U cc true).sent = jsChunks E.reverse
  unfold deliver
  by_cases hE : E.isEmpty = true
  · rw [if_pos hE]
    have hEnil : E = [] := List.isEmpty_iff.mp hE
    subst hEnil
    rw [List.reverse_nil, jsChunks_nil]
  · rw [if_neg hE]
    have hall : ∀ ch ∈ jsChunks E.reverse, ∀ d ∈ ch,
        exceptOk (generateEmbed base cc d) = true := by
      intro ch hch d hd
      apply hgen
      have hmem : d ∈ (jsChunks E.reverse).flatten :=
        List.mem_flatten.mpr ⟨ch, hch, hd⟩
      rw [jsChunks_flatten] at hmem
      exact List.mem_reverse.mp hmem
    rw [sendChunks_all_ok base cc _ hall]
    simp

/-- C6 witness: the chunk-join identity at 25 concrete payloads, the
chunk sizes at 25 items, and the concrete cycle delivering old, mid,
new. -/
theorem claim_C6_witness :
    (jsChunks (List.replicate 25 (mkData postOldR none)).reverse).flatten =
      (List.replicate 25 (mkData postOldR none)).reverse ∧
    ((jsChunks (List.range 25)).map List.length = [10, 10, 5]) ∧
    (pollCycle baseWiki [] tickOrdered).sent = jsChunks
      [mkData postNewR none, mkData postMidR none, mkData postOldR none].reverse := by
  have h := claim_C6_delivery_order_and_chunking
    (List.replicate 25 (mkData postOldR none)) baseWiki [] tickOrdered
    respOrdered emptyCC [11, 12, 13]
    [mkData postNewR none, mkData postMidR none, mkData postOldR none] [] []
  refine ⟨h.1, h.2.2.2.1, ?_⟩
  exact h.2.2.2.2.1 rfl rfl rfl (by decide)

/-- C8: truncation first trims surrounding whitespace; a trimmed string
at or under the maximum (256 for the title, 500 for the body) is
returned unchanged with no ellipsis, and a longer one keeps a prefix and
gets the one-character ellipsis appended so the result is exactly the
maximum length; a 300-character title truncates to 255 characters plus
the ellipsis; and `generateEmbed` applies exactly these maxima to title
and body. -/
theorem claim_C8_truncation (s : Str) :
    ((jsTrim s).length ≤ 256 → trimEllip s 256 = jsTrim s) ∧
    (256 < (jsTrim s).length →
      trimEllip s 256 = (jsTrim s).take 255 ++ ellipsisStr ∧
      (trimEllip s 256).length = 256) ∧
    ((jsTrim s).length ≤ 500 → trimEllip s 500 = jsTrim s) ∧
    (500 < (jsTrim s).length →
      trimEllip s 500 = (jsTrim s).take 499 ++ ellipsisStr ∧
      (trimEllip s 500).length = 500) ∧
    trimEllip (List.replicate 300 'a') 256 =
      List.replicate 255 'a' ++ ellipsisStr ∧
    (trimEllip (List.replicate 300 'a') 256).length = 256 ∧
    (∀ (base : Str) (cc : ContainerCache) (d : Data) (e : Embed),
      jsTruthyOptStr d.title = true → generateEmbed base cc d = .ok e →
      e.title = trimEllip (d.title.getD []) 256 ∧
      e.description = some (trimEllip d.body 500)) := by
  have hlen : ellipsisStr.length = 1 := by decide
  refine ⟨?_, ?_, ?_, ?_, by decide, by decide, ?_⟩
  · intro h
    unfold trimEllip
    rw [if_neg (by omega)]
  · intro h
    constructor
    · unfold trimEllip
      rw [if_pos (by omega), hlen]
    · unfold trimEllip
      rw [if_pos (by omega), List.length_append, List.length_take, hlen]
      omega
  · intro h
    unfold trimEllip
    rw [if_neg (by omega)]
  · intro h
    constructor
    · unfold trimEllip
      rw [if_pos (by omega), hlen]
    · unfold trimEllip
      rw [if_pos (by omega), List.length_append, List.length_take, hlen]
      omega
  · intro base cc d e htitle hok
    rcases hurl : getPostUrl base cc d with u | url
    · rw [generateEmbed, hurl] at hok
      exact absurd hok (by simp)
    · rw [generateEmbed, hurl] at hok
      dsimp only at hok
      rw [if_pos htitle] at hok
      simp only [Except.ok.injEq] at hok
      subst hok
      exact ⟨rfl, rfl⟩

/-- C8 witness: the 300-character title instance, the unchanged-short
instance, and the `generateEmbed` maxima at a concrete payload. -/
theorem claim_C8_witness :
    trimEllip (List.replicate 300 'a') 256 =
      List.replicate 255 'a' ++ ellipsisStr ∧
    trimEllip (mkData postForum1 none).body 500 =
      (mkData postForum1 none).body ∧
    (∀ e : Embed,
      generateEmbed baseWiki emptyCC (mkData postForum1 none) = .ok e →
      e.title = trimEllip ((mkData postForum1 none).title.getD []) 256) := by
  have h1 := claim_C8_truncation (List.replicate 300 'a')
  have h2 := claim_C8_truncation (mkData postForum1 none).body
  refine ⟨h1.2.2.2.2.1, ?_, ?_⟩
  · have := h2.2.2.1 (by decide)
    rw [this]
    decide
  · intro e hok
    exact ((claim_C8_truncation []).2.2.2.2.2.2 baseWiki emptyCC
      (mkData postForum1 none) e (by decide) hok).1

/-- C9: the rich-text flattening function is total — for an absent or
unparsable input (the `none` parse result) and for every JSON value
that is not a document with an iterable `content`, it returns the empty
string; a document whose paragraphs contribute no text also yields the
empty string; and an empty result makes the transformer body
`adfToText(post.jsonModel) || post.rawContent` fall back to the raw
plain-text field, a non-empty result being used verbatim. -/
theorem claim_C9_adf_total_and_fallback (jm : Option Json) (raw : Str)
    (j : Json) (items : List Json) :
    adfToText none = [] ∧
    (∀ s : Str, adfToText (some (.str s)) = []) ∧
    (∀ n : Int, adfToText (some (.num n)) = []) ∧
    (∀ b : Bool, adfToText (some (.bool b)) = []) ∧
    adfToText (some .null) = [] ∧
    (adfContent j = .error () → adfToText (some j) = []) ∧
    (adfContent j = .ok items →
      (∀ p ∈ items, paraContrib p = .ok [] ∨ paraContrib p = .error ()) →
      adfToText (some j) = []) ∧
    (adfToText jm = [] → jsOrStr (adfToText jm) raw = raw) ∧
    (adfToText jm ≠ [] → jsOrStr (adfToText jm) raw = adfToText jm) := by
  refine ⟨rfl, fun s => rfl, fun n => rfl, fun b => rfl, rfl, ?_, ?_, ?_, ?_⟩
  · intro h
    simp only [adfToText]
    rw [h]
  · intro h hall
    simp only [adfToText]
    rw [h]
    exact adfParas_no_text items hall
  · intro h
    unfold jsOrStr
    rw [if_pos (by simp [h])]
  · intro h
    unfold jsOrStr
    rw [if_neg (by simp [List.isEmpty_iff, h])]

/-- C9 witness: the no-text document, the null document, and the
fallback at a concrete raw text. -/
theorem claim_C9_witness :
    adfToText (some adfDocNoText) = [] ∧
    adfToText (some Json.null) = [] ∧
    jsOrStr (adfToText (some Json.null)) ['r'] = ['r'] := by
  have h := claim_C9_adf_total_and_fallback (some Json.null) ['r'] adfDocNoText
    [Json.objOf [(keyType, Json.str litParagraph), (keyContent, Json.arrOf [])]]
  refine ⟨?_, h.2.2.2.2.1, h.2.2.2.2.2.2.2.1 rfl⟩
  exact h.2.2.2.2.2.2.1 rfl (by
    intro p hp
    rw [List.mem_singleton] at hp
    subst hp
    exact Or.inl rfl)

/-- C1: a report whose id is already in the ledger at the start of
FILTERING is never delivered in that cycle; every delivered payload has
its id in the ledger as of the end of FILTERING (and hence in the cache
after the cycle) — the id is added on acceptance, before delivery;
running the poll step again on the same fetch result after a fully
successful cycle delivers nothing and leaves the ledger unchanged; and
across any run of cycles over a correctly-carried ledger, at most one
notification references any given id, none at all if the id was in the
ledger from the start. -/
theorem claim_C1_dedupe_idempotence (base : Str) (c0 : List Nat)
    (t : TickInput) (i : Nat) (ts : List TickInput) :
    (i ∈ c0 → cycleRefs i (pollCycle base c0 t) = 0) ∧
    (∀ d ∈ (pollCycle base c0 t).sent.flatten,
      d.postId ∈ (pollCycle base c0 t).cacheAfter) ∧
    (∀ resp, t.fetch = .ok resp →
      ∀ d ∈ (pollCycle base c0 t).sent.flatten,
      d.postId ∈ (processPosts resp.wallOwners resp.posts c0 [] [] []).1) ∧
    ((pollCycle base c0 t).erroredOther = false →
      (pollCycle base c0 t).reloginCount = 0 →
      ∀ t2 : TickInput, t2.fetch = t.fetch →
        (pollCycle base (pollCycle base c0 t).cacheAfter t2).sent = [] ∧
        (pollCycle base (pollCycle base c0 t).cacheAfter t2).cacheAfter =
          (pollCycle base c0 t).cacheAfter) ∧
    totalRefs i (runCycles base c0 ts) ≤ 1 ∧
    (i ∈ c0 → totalRefs i (runCycles base c0 ts) = 0) := by
  refine ⟨fun hi => pollCycle_refs_cached base c0 t i hi,
    fun d hd => pollCycle_sent_postId_mem base c0 t d hd, ?_,
    fun h1 h2 t2 hf => pollCycle_second_run base c0 t h1 h2 t2 hf,
    runCycles_refs_le_one base i ts c0,
    fun hi => runCycles_refs_zero base i ts c0 hi⟩
  intro resp hresp d hd
  obtain ⟨f, lk⟩ := t
  simp only at hresp
  subst hresp
  have h := pollCycle_sent_postId_mem base c0 ⟨.ok resp, lk⟩ d hd
  rwa [pollCycle_cacheAfter_ok base c0 resp lk] at h

/-- C1 witness: a pre-cached id is never referenced, the second run on
the same fetch result delivers nothing, and two cycles over the same
feed reference a given id at most once. -/
theorem claim_C1_witness :
    cycleRefs 11 (pollCycle baseWiki [11] tickOrdered) = 0 ∧
    (pollCycle baseWiki (pollCycle baseWiki [] tickOrdered).cacheAfter
      tickOrdered).sent = [] ∧
    totalRefs 13 (runCycles baseWiki [] [tickOrdered, tickOrdered]) ≤ 1 := by
  have h1 := claim_C1_dedupe_idempotence baseWiki [11] tickOrdered 11 []
  have h2 := claim_C1_dedupe_idempotence baseWiki [] tickOrdered 13
    [tickOrdered, tickOrdered]
  exact ⟨h1.1 (by decide),
    (h2.2.2.2.1 (by decide) (by decide) tickOrdered rfl).1,
    h2.2.2.2.2.1⟩
